import Mathlib

/-!
Verification of `titan/stats/stats.py` (counter aggregation and persistence).

The Python code is shallowly embedded: Python numbers (ints and floats) are
modelled as exact rationals (`ℚ`), Python exceptions as `Option`/`none`, and
Python dicts as association lists that preserve insertion order (which is what
Python 2.7 dict iteration order is for the small dicts involved, and irrelevant
to every property proved below).  Every definition mirrors a function or a
method of `stats.py`, line for line.
-/

set_option maxRecDepth 4000

namespace Titan

/-- Python 2 `round`: rounds half away from zero (`round(2.5) == 3.0`,
`round(-2.5) == -3.0`). -/
def pyround (q : ℚ) : ℤ :=
  if 0 ≤ q then ⌊q + 1 / 2⌋ else ⌈q - 1 / 2⌉

/-- Python `int()` applied to a real number: truncation toward zero
(`int(2.5) == 2`, `int(-2.5) == -2`). -/
def pyint (q : ℚ) : ℤ :=
  if 0 ≤ q then ⌊q⌋ else ⌈q⌉

/-- `DEFAULT_WINDOW_SIZE` from stats.py (seconds per aggregation window). -/
def DEFAULT_WINDOW_SIZE : ℤ := 60

/-- `_get_window(timestamp, window_size)` from stats.py:
`int(window_size * round(float(timestamp) / window_size))`.  The product of
the integer window size with the integral float returned by `round` is an
exact integer, so the outer `int()` is the identity on it. -/
def getWindow (timestamp : ℚ) (window_size : ℤ) : ℤ :=
  window_size * pyround (timestamp / window_size)

/-- A finalized counter value as it travels between aggregation stages:
either a plain number (`Counter`, `StaticCounter`) or a
`(value, weight)` pair (`AverageCounter`, `AverageTimingCounter`). -/
inductive CounterValue where
  | num : ℚ → CounterValue
  | pairv : ℚ → ℚ → CounterValue
deriving DecidableEq, Repr

/-- The mutable state of one counter object, one constructor per class of the
stats.py hierarchy: `Counter` holds `_value`; `AverageCounter` holds
`_value`/`_weight`; `AverageTimingCounter` additionally holds `_start`
(`none` when not running); `StaticCounter` holds whatever value was last
stored into `_value` (its `aggregate` accepts any value). -/
inductive CounterData where
  | counter : ℚ → CounterData
  | average : ℚ → ℚ → CounterData
  | timing : ℚ → ℚ → Option ℚ → CounterData
  | static : CounterValue → CounterData
deriving DecidableEq, Repr

/-- `AverageCounter.aggregate` arithmetic: given state `(v, w)` and an incoming
partial `(a, b)`, return the new state.  A zero incoming weight returns the
state unchanged (the early `return`).  A zero total weight would make Python
raise `ZeroDivisionError`, modelled as `none`. -/
def aggregateAvg (v w a b : ℚ) : Option (ℚ × ℚ) :=
  if b = 0 then some (v, w)
  else if w + b = 0 then none
  else some ((v * w + a * b) / (w + b), w + b)

/-- `aggregate` dispatched over the class hierarchy.  A call that Python would
answer with `TypeError` (e.g. `Counter.aggregate` of a tuple, which executes
`self._value += value`) is `none`.  `StaticCounter.aggregate` replaces the
stored value outright, whatever it is. -/
def CounterData.aggregate (val : CounterValue) : CounterData → Option CounterData
  | .counter v =>
      match val with
      | .num q => some (.counter (v + q))
      | .pairv _ _ => none
  | .average v w =>
      match val with
      | .pairv a b => (aggregateAvg v w a b).map fun p => .average p.1 p.2
      | .num _ => none
  | .timing v w s =>
      match val with
      | .pairv a b => (aggregateAvg v w a b).map fun p => .timing p.1 p.2 s
      | .num _ => none
  | .static _ => some (.static val)

/-- `finalize` dispatched over the class hierarchy.  `AverageTimingCounter`
asserts it is not running and truncates its value with `int()`; the failed
assertion is `none`. -/
def CounterData.finalize : CounterData → Option CounterValue
  | .counter v => some (.num v)
  | .average v w => some (.pairv v w)
  | .timing v w s =>
      match s with
      | some _ => none
      | none => some (.pairv ((pyint v : ℤ) : ℚ) w)
  | .static val => some val

/-- The `overwrite` class attribute: `True` only for `StaticCounter`. -/
def CounterData.overwrite : CounterData → Bool
  | .static _ => true
  | _ => false

/-- `offset(value)`: `Counter` (and the inheriting `StaticCounter`) executes
`self._value += value`; the average kinds call `aggregate((value, 1))`.
Adding a number to a non-numeric static `_value` raises in Python (`none`). -/
def CounterData.offset (x : ℚ) : CounterData → Option CounterData
  | .counter v => some (.counter (v + x))
  | .average v w => CounterData.aggregate (.pairv x 1) (.average v w)
  | .timing v w s => CounterData.aggregate (.pairv x 1) (.timing v w s)
  | .static val =>
      match val with
      | .num v => some (.static (.num (v + x)))
      | .pairv _ _ => none

/-- `increment()`: `Counter` and `StaticCounter` execute `self._value += 1`;
the average kinds call `aggregate((1, 1))`. -/
def CounterData.increment : CounterData → Option CounterData
  | .counter v => some (.counter (v + 1))
  | .average v w => CounterData.aggregate (.pairv 1 1) (.average v w)
  | .timing v w s => CounterData.aggregate (.pairv 1 1) (.timing v w s)
  | .static val =>
      match val with
      | .num v => some (.static (.num (v + 1)))
      | .pairv _ _ => none

/-- The name/timestamp part of `AbstractBaseCounter.__init__`. -/
structure AbstractBaseCounter where
  name : String
  timestamp : Option ℚ
deriving DecidableEq, Repr

/-- `AbstractBaseCounter.__init__`: raises `ValueError` when the name contains
a colon or begins or ends with a slash; otherwise the counter is built with
`timestamp = None`. -/
def mkAbstractBaseCounter (name : String) : Option AbstractBaseCounter :=
  if name.contains ':' then none
  else if name.startsWith "/" || name.endsWith "/" then none
  else some { name := name, timestamp := none }

/-- One counter object as seen by the request aggregator: its name, its
optional manual timestamp, and its value state. -/
structure CounterInstance where
  name : String
  timestamp : Option ℚ
  data : CounterData
deriving DecidableEq, Repr

/-- First-match lookup in an insertion-ordered association list (Python
`d[k]`, returning `none` where Python raises `KeyError`). -/
def lookupA {K V : Type} [DecidableEq K] (k : K) : List (K × V) → Option V
  | [] => none
  | (k1, v1) :: rest => if k = k1 then some v1 else lookupA k rest

/-- Python dict assignment `d[k] = v`: replaces the value in place if the key
is present, otherwise appends the new binding at the end (dict insertion
order). -/
def setA {K V : Type} [DecidableEq K] (k : K) (v : V) : List (K × V) → List (K × V)
  | [] => [(k, v)]
  | (k1, v1) :: rest => if k = k1 then (k, v) :: rest else (k1, v1) :: setA k v rest

/-- Aggregating into the representative: `self.names_to_counters[name]` is the
first counter appended with that name, and it is aliased into
`final_counters`, so mutating it is updating the first list entry with the
name.  `none` when the aggregation itself raises. -/
def aggregateFirst (n : String) (fv : CounterValue) :
    List CounterInstance → Option (List CounterInstance)
  | [] => none
  | x :: rest =>
      if x.name = n then
        (CounterData.aggregate fv x.data).map fun d => { x with data := d } :: rest
      else
        (aggregateFirst n fv rest).map fun r => x :: r

/-- One iteration of the dedup loop of `_RequestProcessor.process`: a name not
seen before is appended and becomes the representative; a repeated name with a
manual timestamp is appended as its own entry; a repeated name without one is
folded into the representative via `aggregate(counter.finalize())`. -/
def dedupStep (acc : List CounterInstance) (c : CounterInstance) :
    Option (List CounterInstance) :=
  if acc.any fun x => x.name = c.name then
    if c.timestamp.isSome then some (acc ++ [c])
    else do
      let fv ← CounterData.finalize c.data
      aggregateFirst c.name fv acc
  else some (acc ++ [c])

/-- The dedup loop of `_RequestProcessor.process` over the activity's counter
list, producing `final_counters`. -/
def dedupCounters (cs : List CounterInstance) : Option (List CounterInstance) :=
  cs.foldlM dedupStep []

/-- The key under which `_RequestProcessor.process` buckets a surviving
counter: `self.default_window` (the window of the "now" captured at processor
construction) when `counter.timestamp is None`, else the raw
`counter.timestamp` — the code does not window a manual timestamp. -/
def effKey (now : ℚ) (c : CounterInstance) : ℚ :=
  match c.timestamp with
  | none => ((getWindow now DEFAULT_WINDOW_SIZE : ℤ) : ℚ)
  | some t => t

/-- `window_counter_data`: window key → (counter name → finalized value). -/
abbrev WindowMap := List (ℚ × List (String × CounterValue))

/-- One iteration of the windowing loop of `_RequestProcessor.process`:
ensure the bucket for the counter's window exists, then store
`counter.finalize()` under the counter's name in it. -/
def winStep (now : ℚ) (acc : WindowMap) (c : CounterInstance) : Option WindowMap := do
  let fv ← CounterData.finalize c.data
  let bucket := (lookupA (effKey now c) acc).getD []
  pure (setA (effKey now c) (setA c.name fv bucket) acc)

/-- The windowing loop of `_RequestProcessor.process` over `final_counters`,
starting from an empty `window_counter_data`. -/
def buildWindows (now : ℚ) (cs : List CounterInstance) : Option WindowMap :=
  cs.foldlM (winStep now) []

/-- `_RequestProcessor.process` for a single activity against a fresh
processor: an empty counter list is ignored outright; otherwise the dedup
loop runs and the survivors are bucketed by window. -/
def requestProcess (now : ℚ) (counters : List CounterInstance) : Option WindowMap :=
  if counters.isEmpty then some []
  else do
    let fc ← dedupCounters counters
    buildWindows now fc

/-- The value comparison `old_value != counter.finalize()` in
`_BatchProcessor._save_aggregate_data`.  The stored `old_value` was decoded by
`json.loads`, so a pair value is a Python *list*, while `finalize()` of an
average kind returns a *tuple*; in Python 2 a list never equals a tuple, so
pair values always compare unequal.  Plain numbers compare numerically. -/
def pyValEq : CounterValue → CounterValue → Bool
  | .num a, .num b => a = b
  | _, _ => false

/-- The walk over the previously stored series in
`_BatchProcessor._save_aggregate_data` (the `for old_window, old_value in
old_content` loop), threading the `window_exists` flag and the live counter
(which the loop itself mutates via `counter.aggregate(old_value)`).  Returns
the rebuilt content plus the final flag and counter state. -/
def mergeLoop (window : ℚ) :
    List (ℚ × CounterValue) → Bool → CounterData →
    Option (List (ℚ × CounterValue) × Bool × CounterData)
  | [], we, c => some ([], we, c)
  | (ow, ov) :: rest, we, c =>
      if window < ow ∧ we = false then do
        let fv ← CounterData.finalize c
        let r ← mergeLoop window rest true c
        pure ((window, fv) :: (ow, ov) :: r.1, r.2)
      else if ow = window then do
        let fv ← CounterData.finalize c
        if pyValEq ov fv then do
          let r ← mergeLoop window rest true c
          pure ((ow, ov) :: r.1, r.2)
        else do
          let c1 ← if c.overwrite then pure c else CounterData.aggregate ov c
          let fv1 ← CounterData.finalize c1
          let r ← mergeLoop window rest true c1
          pure ((ow, fv1) :: r.1, r.2)
      else do
        let r ← mergeLoop window rest we c
        pure ((ow, ov) :: r.1, r.2)

/-- Stable insertion of one entry behind every entry whose window is not
greater: the building block of a stable sort by window. -/
def sortInsert (p : ℚ × CounterValue) :
    List (ℚ × CounterValue) → List (ℚ × CounterValue)
  | [] => [p]
  | q :: rest => if p.1 < q.1 then p :: q :: rest else q :: sortInsert p rest

/-- `content.sort(key=lambda tup: tup[0])`: a stable sort ascending by
window. -/
def sortByWindow (l : List (ℚ × CounterValue)) : List (ℚ × CounterValue) :=
  l.foldl (fun acc p => sortInsert p acc) []

/-- The per-(path, counter) merge of `_BatchProcessor._save_aggregate_data`
(lines 509–530): walk the old content, insert or fold the incoming window,
append it at the end if never placed, and sort the result by window. -/
def saveMerge (c : CounterData) (window : ℚ)
    (content : List (ℚ × CounterValue)) : Option (List (ℚ × CounterValue)) := do
  let r ← mergeLoop window content false c
  let final ←
    if r.2.1 = false then do
      let fv ← CounterData.finalize r.2.2
      pure (r.1 ++ [(window, fv)])
    else pure r.1
  pure (sortByWindow final)

/-- The state of a `_BatchProcessor`: `window_counters` (window → name → live
counter) and `window_counters_available` (window → names touched, a Python
set modelled as a duplicate-free insertion-ordered list). -/
structure BatchState where
  window_counters : List (ℚ × List (String × CounterData))
  window_counters_available : List (ℚ × List String)
deriving DecidableEq, Repr

/-- The fresh state built by `_BatchProcessor.__init__`. -/
def batchInit : BatchState :=
  { window_counters := [], window_counters_available := [] }

/-- The membership test `counter.name not in self.window_counters` inside
`_BatchProcessor._init_counters`, negated.  The keys of `window_counters` are
numeric windows while the probe is a string name, and in Python 2 a string
never equals a number, so the test is `False` for every key. -/
def pyStrEqNum (_ : String) (_ : ℚ) : Bool := false

/-- `_BatchProcessor._init_counters(window)`: unconditionally rebinds
`window_counters[window]` to a fresh dict and the window's available-set to a
fresh set, then adds every factory counter whose name is not among the keys
of `window_counters` (a vacuous test — see `pyStrEqNum`). -/
def initCounters (counters_func : List (String × CounterData)) (window : ℚ)
    (st : BatchState) : BatchState :=
  let wc0 := setA window [] st.window_counters
  let avail := setA window ([] : List String) st.window_counters_available
  let wc := counters_func.foldl
    (fun w nc =>
      if w.any fun kv => pyStrEqNum nc.1 kv.1 then w
      else setA window (setA nc.1 nc.2 ((lookupA window w).getD [])) w)
    wc0
  { window_counters := wc, window_counters_available := avail }

/-- One value of the serialized `window_counter_data` handed to
`_BatchProcessor.process`: a window and its finalized name → value record. -/
structure WindowRecord where
  window : ℚ
  counters : List (String × CounterValue)
deriving DecidableEq, Repr

/-- The body of `_BatchProcessor.process` for one record: `_init_counters`
then, per `(name, value)` pair, aggregate into the live counter and mark the
name available; a missing name is a caught `KeyError` (logged and skipped),
while a type error inside `aggregate` propagates (`none`). -/
def batchProcessOne (counters_func : List (String × CounterData))
    (st : BatchState) (data : WindowRecord) : Option BatchState :=
  let st1 := initCounters counters_func data.window st
  data.counters.foldlM
    (fun s nv =>
      match lookupA data.window s.window_counters with
      | none => some s
      | some inner =>
          match lookupA nv.1 inner with
          | none => some s
          | some c => do
              let c1 ← CounterData.aggregate nv.2 c
              let avail := (lookupA data.window s.window_counters_available).getD []
              pure { window_counters := setA data.window (setA nv.1 c1 inner) s.window_counters,
                     window_counters_available :=
                       setA data.window
                         (if avail.contains nv.1 then avail else avail ++ [nv.1])
                         s.window_counters_available })
    st1

/-- `_BatchProcessor.process` over the values of one serialized per-request
record. -/
def batchProcess (counters_func : List (String × CounterData))
    (st : BatchState) (rec : List WindowRecord) : Option BatchState :=
  rec.foldlM (batchProcessOne counters_func) st

/-- Claim C7: combining a zero-weight partial into any `CumulativeAverage`
state (an `AverageCounter` or, by inheritance, an `AverageTimingCounter`)
leaves both the value and the weight exactly unchanged. -/
theorem average_combine_zero_weight_noop (x v w : ℚ) (s : Option ℚ) :
    CounterData.aggregate (.pairv x 0) (.average v w) = some (.average v w) ∧
    CounterData.aggregate (.pairv x 0) (.timing v w s) = some (.timing v w s) := by
  constructor <;> simp [CounterData.aggregate, aggregateAvg]

/-- Claim C9: counter construction succeeds exactly when the name contains no
colon (the resource-key separator) and neither begins nor ends with a slash
(the path-segment delimiter); every violating name is rejected at
construction time. -/
theorem counter_name_validation (name : String) :
    (mkAbstractBaseCounter name).isSome ↔
      ¬(name.contains ':' = true ∨ name.startsWith "/" = true ∨
        name.endsWith "/" = true) := by
  by_cases h1 : name.contains ':' <;>
    by_cases h2 : name.startsWith "/" <;>
      by_cases h3 : name.endsWith "/" <;>
        simp [mkAbstractBaseCounter, h1, h2, h3]

unseal Rat.add Rat.mul Rat.inv Rat.sub in
/-- Claim C10: `StaticCounter` inherits `increment` and `offset` from
`Counter`, so both still add to the stored value (`offset v` adds `v`,
`increment` adds 1); only `aggregate` replaces the stored value outright.
In particular `offset(3)` then `offset(4)` on a fresh `StaticCounter`
finalizes to 7, not 4. -/
theorem static_increment_offset_add :
    (∀ s x : ℚ, CounterData.offset x (.static (.num s)) = some (.static (.num (s + x)))) ∧
    (∀ s : ℚ, CounterData.increment (.static (.num s)) = some (.static (.num (s + 1)))) ∧
    (∀ val s : CounterValue, CounterData.aggregate val (.static s) = some (.static val)) ∧
    (do
      let c1 ← CounterData.offset 3 (CounterData.static (.num 0))
      let c2 ← CounterData.offset 4 c1
      CounterData.finalize c2) = some (.num 7) :=
  ⟨fun _ _ => rfl, fun _ => rfl, fun _ _ => rfl, by decide⟩

unseal Rat.add Rat.mul Rat.inv Rat.sub in
/-- Counterexample to claim C4 as stated: an `AverageTimingCounter` that
accumulated the partials `(2, 1)` and `(3, 1)` holds value `5/2`; its
`finalize()` returns `(2, 2)` — `int(5/2)` truncates — while rounding `5/2`
(Python 2 `round`, half away from zero) gives 3, so the returned pair is not
`(round(value), weight)`. -/
theorem timing_finalize_rounding_cex :
    (do
      let c1 ← CounterData.aggregate (.pairv 2 1) (CounterData.timing 0 0 none)
      let c2 ← CounterData.aggregate (.pairv 3 1) c1
      CounterData.finalize c2) = some (.pairv 2 2) ∧
    CounterValue.pairv 2 2 ≠
      CounterValue.pairv ((pyround (5 / 2) : ℤ) : ℚ) 2 := by
  decide

/-- Claim C4 as amended: `AverageTimingCounter.finalize()` fails (assertion)
when the counter is running, and otherwise returns `(int(value), weight)`
where `int` is Python truncation toward zero — for the nonnegative values a
timing counter accumulates, the integer part of the cumulative average, not
its rounding. -/
theorem timing_finalize_truncates :
    (∀ v w t : ℚ, CounterData.finalize (.timing v w (some t)) = none) ∧
    (∀ v w : ℚ,
      CounterData.finalize (.timing v w none) = some (.pairv ((pyint v : ℤ) : ℚ) w)) ∧
    (∀ v : ℚ, 0 ≤ v → ((pyint v : ℤ) : ℚ) ≤ v ∧ v < ((pyint v : ℤ) : ℚ) + 1) := by
  refine ⟨fun _ _ _ => rfl, fun _ _ => rfl, fun v hv => ?_⟩
  rw [pyint, if_pos hv]
  exact ⟨Int.floor_le v, Int.lt_floor_add_one v⟩

/-- Witness for `timing_finalize_truncates` at the concrete value `5/2`. -/
theorem timing_finalize_truncates_witness :
    (0 : ℚ) ≤ 5 / 2 ∧
      (((pyint (5 / 2) : ℤ) : ℚ) ≤ 5 / 2 ∧ (5 / 2 : ℚ) < ((pyint (5 / 2) : ℤ) : ℚ) + 1) :=
  ⟨by norm_num, timing_finalize_truncates.2.2 (5 / 2) (by norm_num)⟩

unseal Rat.add Rat.mul Rat.inv Rat.sub in
/-- Claim C1 evaluated at its failing input: `_BatchProcessor.process` calls
`_init_counters(window)` unconditionally, so a second record for the
already-seen window 60 re-runs the factory, discarding the live counter that
held 3 and the touched-set; the counter ends at 4, not at the accumulated 7
the lazy/idempotent initialization of the claim would give. -/
theorem batch_process_reinitializes_window :
    (do
      let s1 ← batchProcess [("a", CounterData.counter 0)] batchInit
        [⟨60, [("a", .num 3)]⟩]
      batchProcess [("a", CounterData.counter 0)] s1 [⟨60, [("a", .num 4)]⟩]) =
      some ⟨[(60, [("a", CounterData.counter 4)])], [(60, ["a"])]⟩ ∧
    CounterData.counter 4 ≠ CounterData.counter (3 + 4) := by
  decide

unseal Rat.add Rat.mul Rat.inv Rat.sub in
/-- Counterexample to claim C2 as stated: merging the finalized `Sum` value 5
for window 60 into an empty series stores 5, and merging the same value 5 for
the same window again leaves the stored value 5 — not the doubled 10 the
claim asserts, because `_save_aggregate_data` ignores an incoming value equal
to the stored one (`if old_value != counter.finalize()`). -/
theorem merge_sum_same_value_cex :
    saveMerge (.counter 5) 60 [] = some [(60, .num 5)] ∧
    saveMerge (.counter 5) 60 [(60, .num 5)] = some [(60, .num 5)] ∧
    CounterValue.num 5 ≠ CounterValue.num (5 + 5) := by
  decide

/-- Claim C2 as amended: for every `Sum` value and window, merging the same
finalized value twice (the second merge reading the series the first wrote)
stores exactly that value, not its double — the merge skips the fold when the
incoming finalized value equals the stored one, so re-delivery of an
identical value is idempotent. -/
theorem merge_sum_same_value_idempotent (v w : ℚ) :
    (do
      let r1 ← saveMerge (CounterData.counter v) w []
      saveMerge (CounterData.counter v) w r1) = some [(w, .num v)] := by
  simp [saveMerge, mergeLoop, sortByWindow, sortInsert, CounterData.finalize,
    pyValEq, lt_irrefl]

/-- Claim C6: for a `StaticCounter` (overwrite = true) and a fixed window,
merging two values in sequence leaves the stored entry equal to the second
value, whatever the first was: an equal second value is kept as stored, and a
differing one wins outright because `overwrite` skips the fold. -/
theorem merge_static_second_write_wins (v1 v2 w : ℚ) :
    (do
      let r1 ← saveMerge (CounterData.static (.num v1)) w []
      saveMerge (CounterData.static (.num v2)) w r1) = some [(w, .num v2)] := by
  by_cases h : v1 = v2 <;>
    simp [saveMerge, mergeLoop, sortByWindow, sortInsert, CounterData.finalize,
      CounterData.overwrite, pyValEq, lt_irrefl, h]

/-- Rounding an exact integer with Python 2 `round` gives it back. -/
theorem pyround_intCast (k : ℤ) : pyround ((k : ℤ) : ℚ) = k := by
  unfold pyround
  by_cases hk : (0 : ℚ) ≤ ((k : ℤ) : ℚ)
  · rw [if_pos hk]
    have hsplit : ((k : ℤ) : ℚ) + 1 / 2 = 1 / 2 + ((k : ℤ) : ℚ) := by ring
    rw [hsplit, Int.floor_add_int]
    have h0 : ⌊(1 / 2 : ℚ)⌋ = 0 := by
      rw [Int.floor_eq_zero_iff]
      constructor <;> norm_num
    rw [h0, zero_add]
  · rw [if_neg hk]
    have hsplit : ((k : ℤ) : ℚ) - 1 / 2 = -(1 / 2) + ((k : ℤ) : ℚ) := by ring
    rw [hsplit, Int.ceil_add_int]
    have h0 : ⌈(-(1 / 2) : ℚ)⌉ = 0 := by
      rw [Int.ceil_eq_zero_iff]
      constructor <;> norm_num
    rw [h0, zero_add]

/-- Claim C8: the window bucketer is a pure function of its two arguments
(determinism is inherent to the embedding) and is idempotent: re-windowing an
already computed window gives the same window, for every timestamp and every
positive window size. -/
theorem getWindow_idempotent (t : ℚ) (ws : ℤ) (h : 0 < ws) :
    getWindow ((getWindow t ws : ℤ) : ℚ) ws = getWindow t ws := by
  have hws : (ws : ℚ) ≠ 0 := Int.cast_ne_zero.mpr (ne_of_gt h)
  unfold getWindow
  congr 1
  have hdiv : (((ws * pyround (t / ws) : ℤ) : ℚ) / (ws : ℚ)) =
      ((pyround (t / ws) : ℤ) : ℚ) := by
    push_cast
    rw [mul_comm, mul_div_assoc, div_self hws, mul_one]
  rw [hdiv, pyround_intCast]

/-- Witness for `getWindow_idempotent` at timestamp 61 with the default
window size 60. -/
theorem getWindow_idempotent_witness :
    (0 : ℤ) < 60 ∧ getWindow ((getWindow 61 60 : ℤ) : ℚ) 60 = getWindow 61 60 :=
  ⟨by decide, getWindow_idempotent 61 60 (by decide)⟩

/-- `aggregateFirst` folds the value into exactly the first entry whose name
matches — the representative — and leaves every other entry, and the order,
unchanged. -/
theorem aggregateFirst_split (n : String) (fv : CounterValue)
    (pre post : List CounterInstance) (rep : CounterInstance)
    (hpre : ∀ x ∈ pre, x.name ≠ n) (hrep : rep.name = n) :
    aggregateFirst n fv (pre ++ rep :: post) =
      (CounterData.aggregate fv rep.data).map
        fun d => pre ++ { rep with data := d } :: post := by
  induction pre with
  | nil => simp [aggregateFirst, hrep]
  | cons x pre ih =>
      have hx : x.name ≠ n := hpre x (by simp)
      have hpre2 : ∀ y ∈ pre, y.name ≠ n := fun y hy => hpre y (by simp [hy])
      simp only [List.cons_append, aggregateFirst, if_neg hx, List.append_eq]
      rw [ih hpre2]
      cases CounterData.aggregate fv rep.data <;> simp

unseal Rat.add Rat.mul Rat.inv Rat.sub in
/-- Claim C5: in the per-unit dedup loop, the first occurrence of a name is
the representative; a later counter with the same name and an explicit
timestamp is appended as its own independent entry and never merged (first
conjunct); a counter whose name is new is appended and becomes the
representative (second conjunct); every later counter with the same name and
no explicit timestamp is folded by value into the representative — the first
entry with its name — via `aggregate(finalize())`, leaving every other entry
unchanged and appending nothing (third conjunct); and concretely two `Sum`
counters named "a" with values 3 and 4 and no timestamp dedup to one
representative finalizing to 7, while the timestamped variant stays two
separate entries with the first unchanged (last conjuncts). -/
theorem request_dedup_behavior :
    (∀ (l : List CounterInstance) (c : CounterInstance), c.timestamp.isSome = true →
      dedupCounters (l ++ [c]) =
        (dedupCounters l).bind fun acc => some (acc ++ [c])) ∧
    (∀ (l : List CounterInstance) (c : CounterInstance) (acc : List CounterInstance),
      dedupCounters l = some acc → (∀ x ∈ acc, x.name ≠ c.name) →
      dedupCounters (l ++ [c]) = some (acc ++ [c])) ∧
    (∀ (l : List CounterInstance) (c : CounterInstance)
      (pre post : List CounterInstance) (rep : CounterInstance),
      dedupCounters l = some (pre ++ rep :: post) → c.timestamp = none →
      (∀ x ∈ pre, x.name ≠ c.name) → rep.name = c.name →
      dedupCounters (l ++ [c]) =
        (CounterData.finalize c.data).bind fun fv =>
          (CounterData.aggregate fv rep.data).map
            fun d => pre ++ { rep with data := d } :: post) ∧
    dedupCounters [⟨"a", none, .counter 3⟩, ⟨"a", none, .counter 4⟩] =
      some [⟨"a", none, .counter 7⟩] ∧
    dedupCounters [⟨"a", none, .counter 3⟩, ⟨"a", some 120, .counter 4⟩] =
      some [⟨"a", none, .counter 3⟩, ⟨"a", some 120, .counter 4⟩] := by
  refine ⟨?_, ?_, ?_, by decide, by decide⟩
  · intro l c hts
    rw [dedupCounters, dedupCounters, List.foldlM_append]
    cases hacc : List.foldlM dedupStep [] l with
    | none => rfl
    | some acc =>
        simp only [Option.bind_eq_bind, Option.some_bind, List.foldlM_cons,
          List.foldlM_nil]
        by_cases hany : acc.any fun x => x.name = c.name
        · simp [dedupStep, hany, hts]
        · simp [dedupStep, hany]
  · intro l c acc hl hname
    rw [dedupCounters, List.foldlM_append]
    rw [dedupCounters] at hl
    rw [hl]
    have hany : (acc.any fun x => x.name = c.name) = false := by
      rw [List.any_eq_false]
      intro x hx
      simpa using hname x hx
    simp only [List.foldlM_cons, List.foldlM_nil, Option.bind_eq_bind,
      Option.some_bind]
    simp [dedupStep, hany]
  · intro l c pre post rep hl hts hpre hrep
    rw [dedupCounters, List.foldlM_append]
    rw [dedupCounters] at hl
    rw [hl]
    have hany : ((pre ++ rep :: post).any fun x => x.name = c.name) = true := by
      rw [List.any_eq_true]
      exact ⟨rep, by simp, by simp [hrep]⟩
    have hts2 : c.timestamp.isSome = false := by rw [hts]; rfl
    simp only [List.foldlM_cons, List.foldlM_nil, Option.bind_eq_bind,
      Option.some_bind]
    simp only [dedupStep, hany, hts2, if_true, if_false, Bool.false_eq_true,
      ite_false, ite_true]
    cases hf : CounterData.finalize c.data with
    | none => simp [hf]
    | some fv =>
        simp only [hf, Option.bind_eq_bind, Option.some_bind]
        rw [aggregateFirst_split c.name fv pre post rep hpre hrep]
        cases CounterData.aggregate fv rep.data <;> simp

/-- Witness for `request_dedup_behavior`: a later counter with a manual
timestamp is appended unchanged, a counter with a fresh name is appended
unchanged, and a later timestamp-free counter named "a" is folded by value
into the representative named "a". -/
theorem request_dedup_behavior_witness :
    (dedupCounters ([⟨"b", none, .counter 1⟩] ++ [⟨"a", some 5, .counter 2⟩]) =
      (dedupCounters [⟨"b", none, .counter 1⟩]).bind
        fun acc => some (acc ++ [⟨"a", some 5, .counter 2⟩])) ∧
    (dedupCounters ([⟨"b", none, .counter 1⟩] ++ [⟨"c", none, .counter 2⟩]) =
      some ([⟨"b", none, .counter 1⟩] ++ [⟨"c", none, .counter 2⟩])) ∧
    dedupCounters ([⟨"b", none, .counter 1⟩, ⟨"a", none, .counter 3⟩] ++
        [⟨"a", none, .counter 4⟩]) =
      (CounterData.finalize (CounterData.counter 4)).bind fun fv =>
        (CounterData.aggregate fv (CounterData.counter 3)).map
          fun d => [⟨"b", none, .counter 1⟩] ++
            { name := "a", timestamp := none, data := d } :: [] :=
  ⟨request_dedup_behavior.1 [⟨"b", none, .counter 1⟩] ⟨"a", some 5, .counter 2⟩
      (by decide),
    request_dedup_behavior.2.1 [⟨"b", none, .counter 1⟩] ⟨"c", none, .counter 2⟩
      [⟨"b", none, .counter 1⟩] (by decide) (by decide),
    request_dedup_behavior.2.2.1 [⟨"b", none, .counter 1⟩, ⟨"a", none, .counter 3⟩]
      ⟨"a", none, .counter 4⟩ [⟨"b", none, .counter 1⟩] []
      ⟨"a", none, .counter 3⟩ (by decide) (by decide) (by decide) (by decide)⟩

/-- Looking up the key just stored finds the stored value. -/
theorem lookupA_setA_self {K V : Type} [DecidableEq K] (k : K) (v : V)
    (l : List (K × V)) : lookupA k (setA k v l) = some v := by
  induction l with
  | nil => simp [setA, lookupA]
  | cons p rest ih =>
      obtain ⟨k2, v2⟩ := p
      by_cases h : k = k2 <;> simp [setA, lookupA, h, ih]

/-- Storing under one key leaves lookups of every other key unchanged. -/
theorem lookupA_setA_ne {K V : Type} [DecidableEq K] (k k1 : K) (v : V)
    (l : List (K × V)) (h : k ≠ k1) : lookupA k (setA k1 v l) = lookupA k l := by
  induction l with
  | nil => simp [setA, lookupA, h]
  | cons p rest ih =>
      obtain ⟨k2, v2⟩ := p
      by_cases h2 : k1 = k2
      · subst h2
        simp [setA, lookupA, h, ih]
      · by_cases h3 : k = k2 <;> simp [setA, lookupA, h2, h3, ih]

/-- The counter name `n` has a finalized value in the bucket keyed `k` of the
window map `m`. -/
def presentIn (k : ℚ) (n : String) (m : WindowMap) : Prop :=
  ∃ b, lookupA k m = some b ∧ (lookupA n b).isSome = true

/-- One `winStep` preserves every present (window, name) pair and makes the
processed counter present under its effective key. -/
theorem winStep_preserves (now : ℚ) (acc acc1 : WindowMap) (c : CounterInstance)
    (h : winStep now acc c = some acc1) :
    (∀ k n, presentIn k n acc → presentIn k n acc1) ∧
    presentIn (effKey now c) c.name acc1 := by
  unfold winStep at h
  cases hf : CounterData.finalize c.data with
  | none => rw [hf] at h; simp at h
  | some fv =>
      rw [hf] at h
      simp only [Option.bind_eq_bind, Option.some_bind, Option.pure_def,
        Option.some.injEq] at h
      subst h
      constructor
      · rintro k n ⟨b, hb, hn⟩
        by_cases hk : k = effKey now c
        · subst hk
          refine ⟨setA c.name fv ((lookupA (effKey now c) acc).getD []),
            lookupA_setA_self _ _ _, ?_⟩
          rw [hb]
          by_cases hn1 : n = c.name
          · subst hn1
            rw [lookupA_setA_self]
            rfl
          · rw [lookupA_setA_ne _ _ _ _ hn1]
            simpa using hn
        · exact ⟨b, by rw [lookupA_setA_ne _ _ _ _ hk]; exact hb, hn⟩
      · refine ⟨setA c.name fv ((lookupA (effKey now c) acc).getD []),
          lookupA_setA_self _ _ _, ?_⟩
        rw [lookupA_setA_self]
        rfl

/-- The windowing fold, from any starting map: present pairs are preserved
and every processed counter ends up present under its effective key. -/
theorem winSteps_present (now : ℚ) :
    ∀ (cs : List CounterInstance) (acc out : WindowMap),
      cs.foldlM (winStep now) acc = some out →
      (∀ k n, presentIn k n acc → presentIn k n out) ∧
      (∀ c ∈ cs, presentIn (effKey now c) c.name out) := by
  intro cs
  induction cs with
  | nil =>
      intro acc out h
      simp only [List.foldlM_nil, Option.pure_def, Option.some.injEq] at h
      subst h
      exact ⟨fun _ _ hk => hk, by simp⟩
  | cons c rest ih =>
      intro acc out h
      rw [List.foldlM_cons] at h
      cases hstep : winStep now acc c with
      | none => rw [hstep] at h; simp at h
      | some acc1 =>
          rw [hstep] at h
          simp only [Option.bind_eq_bind, Option.some_bind] at h
          obtain ⟨hpres, hc⟩ := winStep_preserves now acc acc1 c hstep
          obtain ⟨hpres2, hrest⟩ := ih acc1 out h
          refine ⟨fun k n hk => hpres2 k n (hpres k n hk), ?_⟩
          intro x hx
          cases hx with
          | head => exact hpres2 _ _ hc
          | tail _ hx => exact hrest x hx

unseal Rat.add Rat.mul Rat.inv Rat.sub in
/-- Counterexample to claim C3 as stated: a surviving counter with the manual
timestamp 61 is bucketed under the raw key 61, not under the window of that
timestamp — `getWindow 61 60 = 60`, and the output map has no bucket keyed
60 at all. -/
theorem window_manual_timestamp_cex :
    buildWindows 0 [⟨"a", some 61, CounterData.counter 5⟩] =
      some [((61 : ℚ), [("a", CounterValue.num 5)])] ∧
    getWindow 61 DEFAULT_WINDOW_SIZE = 60 ∧
    lookupA ((getWindow 61 DEFAULT_WINDOW_SIZE : ℤ) : ℚ)
      [((61 : ℚ), [("a", CounterValue.num 5)])] = none ∧
    ((61 : ℚ)) ≠ ((getWindow 61 DEFAULT_WINDOW_SIZE : ℤ) : ℚ) := by
  decide

/-- Claim C3 as amended: every surviving counter with an explicit timestamp
is placed into the bucket keyed by that raw timestamp (the code does not
window a manual timestamp), and every counter without one is placed into the
single window computed from the "now" captured at processor construction
(`effKey`); in both cases the counter's name is present in that bucket of the
output. -/
theorem window_bucket_placement (now : ℚ) (cs : List CounterInstance)
    (out : WindowMap) (h : buildWindows now cs = some out) :
    ∀ c ∈ cs, presentIn (effKey now c) c.name out :=
  (winSteps_present now cs [] out h).2

/-- Witness for `window_bucket_placement`: the counter named "a" with manual
timestamp 61 is present under the raw key 61 of the output map. -/
theorem window_bucket_placement_witness :
    presentIn (effKey 0 ⟨"a", some 61, CounterData.counter 5⟩) "a"
      [((61 : ℚ), [("a", CounterValue.num 5)])] :=
  window_bucket_placement 0 [⟨"a", some 61, CounterData.counter 5⟩]
    [((61 : ℚ), [("a", CounterValue.num 5)])] (by decide)
    ⟨"a", some 61, CounterData.counter 5⟩ (by decide)

end Titan
